import Mathlib

/-
Formal model of the NES CHR graphics tools of this repository
(tools/convert_chr_to_png.py and tools/extract_chr.py).

Bytes are modelled as natural numbers, Python byte strings as `List Nat`,
Python `int` as `Int` where negative values are reachable, and PIL images
as a record of a width, a height and a total pixel function.  Fallible
code (`raise ValueError`) is modelled with `Except`.
-/

/-- RGB triple, modelling a PIL color tuple. -/
abbrev RGB := Nat × Nat × Nat

/-- Default fill color of a freshly created PIL RGB image. -/
def black : RGB := (0, 0, 0)

/-- Standard NES color palette, transcribed from `NES_PALETTE` in
tools/convert_chr_to_png.py (64 RGB entries). -/
def NES_PALETTE : List RGB := [
  (0x62, 0x62, 0x62), (0x00, 0x1f, 0xb2), (0x21, 0x0c, 0xa0), (0x44, 0x00, 0x96),
  (0x73, 0x00, 0x6b), (0x80, 0x00, 0x2e), (0x6f, 0x0f, 0x00), (0x4c, 0x1e, 0x00),
  (0x19, 0x32, 0x00), (0x00, 0x3b, 0x00), (0x00, 0x3a, 0x1e), (0x00, 0x32, 0x5d),
  (0x00, 0x00, 0x00), (0x00, 0x00, 0x00), (0x00, 0x00, 0x00), (0x00, 0x00, 0x00),
  (0xb6, 0xb6, 0xb6), (0x10, 0x5c, 0xe7), (0x48, 0x3c, 0xdb), (0x74, 0x2a, 0xd0),
  (0xa7, 0x25, 0x9f), (0xb5, 0x2e, 0x5a), (0xa0, 0x46, 0x17), (0x79, 0x57, 0x00),
  (0x46, 0x6e, 0x00), (0x27, 0x78, 0x00), (0x00, 0x76, 0x3e), (0x00, 0x6e, 0x8a),
  (0x00, 0x00, 0x00), (0x00, 0x00, 0x00), (0x00, 0x00, 0x00), (0x00, 0x00, 0x00),
  (0xff, 0xff, 0xff), (0x5f, 0xa8, 0xff), (0x8f, 0x8a, 0xff), (0xbc, 0x78, 0xff),
  (0xec, 0x71, 0xff), (0xff, 0x76, 0xba), (0xff, 0x91, 0x6f), (0xff, 0xa5, 0x29),
  (0xcc, 0xbf, 0x00), (0xa4, 0xca, 0x1c), (0x6d, 0xd8, 0x64), (0x3f, 0xd4, 0xc5),
  (0x00, 0x00, 0x00), (0x00, 0x00, 0x00), (0x00, 0x00, 0x00), (0x00, 0x00, 0x00),
  (0xff, 0xff, 0xff), (0xbd, 0xe2, 0xff), (0xd1, 0xd6, 0xff), (0xe5, 0xce, 0xff),
  (0xf8, 0xcc, 0xff), (0xff, 0xce, 0xed), (0xff, 0xd9, 0xd1), (0xff, 0xe0, 0xbf),
  (0xea, 0xea, 0x9e), (0xd8, 0xef, 0x9e), (0xc4, 0xf3, 0xbd), (0xb7, 0xf2, 0xe6),
  (0x00, 0x00, 0x00), (0x00, 0x00, 0x00), (0x00, 0x00, 0x00), (0x00, 0x00, 0x00)]

/-- Python list/bytes slice `l[a:b]` (step 1) with full Python index
semantics: negative bounds count from the end, and both bounds are
clamped to the valid range. -/
def pySlice {α : Type} (l : List α) (a b : Int) : List α :=
  let n : Int := l.length
  let lo := if a < 0 then max (a + n) 0 else min a n
  let hi := if b < 0 then max (b + n) 0 else min b n
  (l.drop lo.toNat).take (hi - lo).toNat

/-- Python slice `l[a:b]` for the non-negative offsets used by the tile
decoder (`chr_data[offset:offset+8]`). -/
def sliceN {α : Type} (l : List α) (a b : Nat) : List α :=
  (l.drop a).take (b - a)

/-- Payload of the `ValueError` raised by `extract_chr`: the message
names the requested address, the requested size and the available ROM
size. -/
structure RangeError where
  address : Int
  size : Int
  romSize : Nat
deriving DecidableEq

/-- Model of `extract_chr` in tools/extract_chr.py: bounds check then
byte slice.  The function does not mutate `rom_data` (the model is a
pure function). -/
def extract_chr (rom_data : List Nat) (address : Int) (size : Int) :
    Except RangeError (List Nat) :=
  if (address + size) > (rom_data.length : Int) then
    Except.error ⟨address, size, rom_data.length⟩
  else
    Except.ok (pySlice rom_data address (address + size))

/-- Model of `decode_tile` in tools/convert_chr_to_png.py: slice the two
bit planes of tile `tile_index` and combine them row by row into an 8x8
grid of 2-bit color indices. -/
def decode_tile (chr_data : List Nat) (tile_index : Nat) : List (List Nat) :=
  let offset := tile_index * 16
  let tile_low := sliceN chr_data offset (offset + 8)
  let tile_high := sliceN chr_data (offset + 8) (offset + 16)
  (List.range 8).map fun y =>
    let low_byte := tile_low.getD y 0
    let high_byte := tile_high.getD y 0
    (List.range 8).map fun x =>
      let bit := 7 - x
      let low_bit := (low_byte >>> bit) &&& 1
      let high_bit := (high_byte >>> bit) &&& 1
      (high_bit <<< 1) ||| low_bit

/-- Model of `get_palette_colors`: `NES_PALETTE[i & 0x3f]` for each raw
index.  Python `&` on `int` is `Int.land` (two's complement on negative
values); the masked index is always in `[0, 63]`, so the lookup never
fails and the `black` default of `getD` is never used. -/
def get_palette_colors (palette_indices : List Int) : List RGB :=
  palette_indices.map fun i => NES_PALETTE.getD (Int.land i 63).toNat black

/-- PIL image model: dimensions plus a total pixel function. -/
structure Img where
  width : Nat
  height : Nat
  pix : Nat → Nat → RGB

/-- Model of `PIL.Image.new('RGB', (w, h))`: a `w` by `h` image filled
with black. -/
def Image.new (w h : Nat) : Img :=
  ⟨w, h, fun _ _ => black⟩

/-- Model of the PIL pixel-access write `pixels[x, y] = c`. -/
def setPix (img : Img) (x y : Nat) (c : RGB) : Img :=
  { img with pix := fun a b => if a = x ∧ b = y then c else img.pix a b }

/-- Model of `create_tile_image`: a fresh `8*scale` square image whose
pixels are written by the four nested loops of the source (rows `y`,
columns `x`, then the `scale` by `scale` replication block `dy`, `dx`). -/
def create_tile_image (tile_pixels : List (List Nat)) (palette : List RGB)
    (scale : Nat) : Img :=
  let img := Image.new (8 * scale) (8 * scale)
  (List.range 8).foldl (fun img y =>
    (List.range 8).foldl (fun img x =>
      let color := palette.getD ((tile_pixels.getD y []).getD x 0) black
      (List.range scale).foldl (fun img dy =>
        (List.range scale).foldl (fun img dx =>
          setPix img (x * scale + dx) (y * scale + dy) color) img) img) img) img

/-- Model of `PIL.Image.paste(src, (x, y))`: the source image overwrites
the rectangle of the destination with top-left corner `(x, y)`, clipped
to the destination bounds. -/
def paste (dst : Img) (src : Img) (x y : Nat) : Img :=
  { dst with pix := fun a b =>
      if a < dst.width ∧ b < dst.height ∧
          x ≤ a ∧ a < x + src.width ∧ y ≤ b ∧ b < y + src.height then
        src.pix (a - x) (b - y)
      else dst.pix a b }

/-- Local `num_tiles = len(chr_data) // 16` of `create_sprite_sheet`. -/
def num_tiles (chr_data : List Nat) : Nat :=
  chr_data.length / 16

/-- Model of `create_sprite_sheet`: decode every complete tile,
rasterize it, and paste it at its row-major grid position. -/
def create_sprite_sheet (chr_data : List Nat) (palette : List RGB)
    (tiles_per_row : Nat) (scale : Nat) : Img :=
  let rows := (num_tiles chr_data + tiles_per_row - 1) / tiles_per_row
  let tile_size := 8 * scale
  let sheet_width := tiles_per_row * tile_size
  let sheet_height := rows * tile_size
  let sheet := Image.new sheet_width sheet_height
  (List.range (num_tiles chr_data)).foldl (fun sheet tile_idx =>
    let tile_pixels := decode_tile chr_data tile_idx
    let tile_img := create_tile_image tile_pixels palette scale
    let row := tile_idx / tiles_per_row
    let col := tile_idx % tiles_per_row
    let x := col * tile_size
    let y := row * tile_size
    paste sheet tile_img x y) sheet

/-- Model of the complete-tile check of `main` (lines 162-165 of
tools/convert_chr_to_png.py): when the buffer length is not a multiple
of 16 the buffer is truncated to the largest complete-tile prefix and a
warning is printed (second component `true`); the run continues in
either case. -/
def main_truncate (chr_data : List Nat) : List Nat × Bool :=
  if chr_data.length % 16 ≠ 0 then
    (chr_data.take (chr_data.length - chr_data.length % 16), true)
  else
    (chr_data, false)

/-
Helper lemmas.
-/

/-- Bit masking with `63` on naturals is reduction mod `64`. -/
theorem nat_and_63 (n : Nat) : n &&& 63 = n % 64 := by
  apply Nat.eq_of_testBit_eq
  intro i
  rw [Nat.testBit_and]
  rw [show (64 : Nat) = 2 ^ 6 by norm_num, Nat.testBit_mod_two_pow]
  rw [show (63 : Nat) = 2 ^ 6 - 1 by norm_num, Nat.testBit_two_pow_sub_one]
  cases Nat.decLt i 6 with
  | isTrue h => simp [h]
  | isFalse h => simp [h]

/-- The `Nat.ldiff` case of masking a negative Python integer. -/
theorem nat_ldiff_63 (m : Nat) : Nat.ldiff 63 m = 63 - m % 64 := by
  have key : ∀ x, x < 64 → (63 : Nat) ^^^ x = 63 - x := by decide
  have h2 : Nat.ldiff 63 m = 63 ^^^ (m % 64) := by
    apply Nat.eq_of_testBit_eq
    intro i
    rw [Nat.testBit_ldiff, Nat.testBit_xor]
    rw [show (64 : Nat) = 2 ^ 6 by norm_num, Nat.testBit_mod_two_pow]
    rw [show (63 : Nat) = 2 ^ 6 - 1 by norm_num, Nat.testBit_two_pow_sub_one]
    cases Nat.decLt i 6 with
    | isTrue h => simp [h]
    | isFalse h => simp [h]
  rw [h2, key _ (Nat.mod_lt _ (by norm_num))]

/-- Python `i & 0x3f` on an arbitrary `int` equals `i % 64` (`Int.emod`,
which is Python's `%`). -/
theorem int_land_63 (i : Int) : Int.land i 63 = i % 64 := by
  cases i with
  | ofNat n =>
    have h1 : Int.land (Int.ofNat n) 63 = Int.ofNat (n &&& 63) := rfl
    rw [h1, nat_and_63]
    show ((n % 64 : Nat) : Int) = ((n : Nat) : Int) % 64
    omega
  | negSucc m =>
    have h1 : Int.land (Int.negSucc m) 63 = Int.ofNat (Nat.ldiff 63 m) := rfl
    rw [h1, nat_ldiff_63, Int.negSucc_eq]
    show ((63 - m % 64 : Nat) : Int) = -(((m : Nat) : Int) + 1) % 64
    omega

/-
Claim theorems on the palette resolver, the extractor and the
truncation policy.
-/

/-- Claim C2 (counterexample): for the synthetic tile record with
low-plane byte `0b10000000` and high-plane byte `0` at row 0, decoding
does NOT yield `[2,0,0,0,0,0,0,0]` as row 0: the formula
`(high << 1) | low` gives color index 1 for the leftmost pixel. -/
theorem decode_tile_row0_not_two :
    (decode_tile [0x80, 0, 0, 0, 0, 0, 0, 0, 0, 0, 0, 0, 0, 0, 0, 0] 0).getD 0 []
      ≠ [2, 0, 0, 0, 0, 0, 0, 0] := by decide

/-- Claim C2 (amended): decoding the synthetic tile record with
low-plane byte `0b10000000` and high-plane byte `0` at row 0 yields
`[1,0,0,0,0,0,0,0]` as row 0 of the color-index grid. -/
theorem decode_tile_row0_synthetic :
    (decode_tile [0x80, 0, 0, 0, 0, 0, 0, 0, 0, 0, 0, 0, 0, 0, 0, 0] 0).getD 0 []
      = [1, 0, 0, 0, 0, 0, 0, 0] := by decide

/-- Claim C3: `get_palette_colors` maps each input index, in order, to
the System Color Table entry at the index reduced mod 64; the masked
index is always in range (so no lookup ever fails), index 64 aliases
index 0, and index 67 aliases index 3. -/
theorem get_palette_colors_mask (l : List Int) :
    (get_palette_colors l).length = l.length ∧
    (∀ k, k < l.length →
      (get_palette_colors l).getD k black
          = NES_PALETTE.getD ((l.getD k 0) % 64).toNat black ∧
      ((l.getD k 0) % 64).toNat < NES_PALETTE.length) ∧
    get_palette_colors [64] = get_palette_colors [0] ∧
    get_palette_colors [67] = get_palette_colors [3] := by
  refine ⟨by simp [get_palette_colors], ?_, rfl, rfl⟩
  intro k hk
  constructor
  · simp only [get_palette_colors, List.getD_eq_getElem?_getD, List.getElem?_map,
      List.getElem?_eq_getElem hk]
    simp only [Option.map_some', Option.getD_some]
    rw [int_land_63]
  · have h1 : 0 ≤ (l.getD k 0) % 64 := Int.emod_nonneg _ (by norm_num)
    have h2 : (l.getD k 0) % 64 < 64 := Int.emod_lt_of_pos _ (by norm_num)
    have hlen : NES_PALETTE.length = 64 := rfl
    rw [hlen]
    omega

/-- Witness for claim C3 at the concrete input `[64, -5]`. -/
theorem get_palette_colors_mask_witness :
    (get_palette_colors [(64 : Int), -5]).length = 2 ∧
    (get_palette_colors [(64 : Int), -5]).getD 1 black
        = NES_PALETTE.getD (((-5 : Int) % 64)).toNat black :=
  ⟨(get_palette_colors_mask [(64 : Int), -5]).1,
   ((get_palette_colors_mask [(64 : Int), -5]).2.1 1 (by decide)).1⟩

/-- Claim C9: `extract_chr` does not reject negative addresses: with
buffer `[0, 0]`, address `-1` and size `1` the bounds check passes and
the call returns `ok`, but the returned Python slice is empty, shorter
than the requested size. -/
theorem extract_chr_negative_address_accepted :
    extract_chr [0, 0] (-1) 1 = Except.ok [] ∧ ([] : List Nat).length < 1 :=
  ⟨rfl, by decide⟩

/-- Claim C4 (counterexample): quantified over ALL addresses and sizes
the claim fails.  At address `-1`, size `1` on `[0, 0]` the bounds check
passes yet the result is empty, not a slice of length 1; at address `1`,
size `-1` on `[1, 2, 3, 4]` the result is likewise not of length `size`. -/
theorem extract_chr_negative_args_break_slice :
    (extract_chr [0, 0] (-1) 1 = Except.ok [] ∧ ([] : List Nat).length ≠ 1) ∧
    (extract_chr [1, 2, 3, 4] 1 (-1) = Except.ok [] ∧
      ((([] : List Nat).length : Int) ≠ -1)) :=
  ⟨⟨rfl, by decide⟩, ⟨rfl, by decide⟩⟩

/-- Claim C4 (amended with the preconditions `0 ≤ address` and
`0 ≤ size`): `extract_chr` fails, naming the requested address and size
and the available ROM size, exactly when `address + size` exceeds the
buffer length, and otherwise returns the exact byte slice
`[address, address+size)`, of length `size`.  The model is a pure
function, so the input buffer is unchanged. -/
theorem extract_chr_range_correct (rom_data : List Nat) (address size : Int)
    (ha : 0 ≤ address) (hs : 0 ≤ size) :
    (address + size > (rom_data.length : Int) →
      extract_chr rom_data address size
        = Except.error ⟨address, size, rom_data.length⟩) ∧
    (address + size ≤ (rom_data.length : Int) →
      extract_chr rom_data address size
        = Except.ok ((rom_data.drop address.toNat).take size.toNat) ∧
      (((rom_data.drop address.toNat).take size.toNat).length : Int) = size) := by
  constructor
  · intro h
    simp only [extract_chr, if_pos h]
  · intro h
    have hnot : ¬(address + size > (rom_data.length : Int)) := not_lt.mpr h
    constructor
    · simp only [extract_chr, if_neg hnot, pySlice]
      rw [if_neg (not_lt.mpr ha), if_neg (not_lt.mpr (by omega : (0 : Int) ≤ address + size))]
      rw [min_eq_left (by omega : address ≤ (rom_data.length : Int)),
        min_eq_left h]
      congr 2
      omega
    · rw [List.length_take, List.length_drop]
      have hle : size.toNat ≤ rom_data.length - address.toNat := by omega
      rw [min_eq_left hle]
      omega

/-- Witness for claim C4: an in-range request returns the slice, an
out-of-range request returns the descriptive error. -/
theorem extract_chr_range_correct_witness :
    extract_chr [1, 2, 3] 1 2
        = Except.ok ((([1, 2, 3] : List Nat).drop (1 : Int).toNat).take (2 : Int).toNat) ∧
    extract_chr [1, 2, 3] 2 5 = Except.error ⟨2, 5, 3⟩ :=
  ⟨((extract_chr_range_correct [1, 2, 3] 1 2 (by decide) (by decide)).2 (by decide)).1,
   (extract_chr_range_correct [1, 2, 3] 2 5 (by decide) (by decide)).1 (by decide)⟩

/-- Claim C5: the number of tiles decoded into the sheet is
`floor(length / 16)`, the truncation step of `main` drops trailing bytes
with a warning and never fails, and a 17-byte buffer yields exactly one
tile with the warning emitted. -/
theorem sheet_tile_count_truncation (chr_data : List Nat) :
    num_tiles chr_data = chr_data.length / 16 ∧
    num_tiles (main_truncate chr_data).1 = chr_data.length / 16 ∧
    ((main_truncate chr_data).2 = true ↔ chr_data.length % 16 ≠ 0) ∧
    (chr_data.length = 17 →
      num_tiles chr_data = 1 ∧ (main_truncate chr_data).2 = true ∧
        (main_truncate chr_data).1.length = 16) := by
  refine ⟨rfl, ?_, ?_, ?_⟩
  · by_cases h : chr_data.length % 16 = 0
    · simp [main_truncate, h, num_tiles]
    · simp only [main_truncate, if_pos h, num_tiles, List.length_take]
      rw [min_eq_left (Nat.sub_le _ _)]
      omega
  · by_cases h : chr_data.length % 16 = 0 <;> simp [main_truncate, h]
  · intro h17
    refine ⟨?_, ?_, ?_⟩
    · simp [num_tiles, h17]
    · simp [main_truncate, h17]
    · have hcond : chr_data.length % 16 ≠ 0 := by omega
      simp only [main_truncate, if_pos hcond, List.length_take]
      rw [min_eq_left (Nat.sub_le _ _)]
      omega

/-- Witness for claim C5 at a concrete 17-byte buffer. -/
theorem sheet_tile_count_truncation_witness :
    num_tiles (List.replicate 17 0) = 1 ∧
    (main_truncate (List.replicate 17 0)).2 = true ∧
    (main_truncate (List.replicate 17 0)).1.length = 16 :=
  (sheet_tile_count_truncation (List.replicate 17 0)).2.2.2 (by decide)

/-- Claim C10: a buffer with no complete tile produces, without error,
an empty sheet of width `tiles_per_row * 8 * scale` and height 0: the
row count evaluates to 0 and the tile loop runs no iterations, leaving
the freshly created empty image. -/
theorem sprite_sheet_empty_when_short (chr_data : List Nat) (palette : List RGB)
    (tiles_per_row scale : Nat) (hshort : chr_data.length < 16)
    (htpr : 1 ≤ tiles_per_row) :
    (create_sprite_sheet chr_data palette tiles_per_row scale).width
        = tiles_per_row * 8 * scale ∧
    (create_sprite_sheet chr_data palette tiles_per_row scale).height = 0 ∧
    create_sprite_sheet chr_data palette tiles_per_row scale
        = Image.new (tiles_per_row * (8 * scale)) 0 := by
  have h0 : num_tiles chr_data = 0 := Nat.div_eq_of_lt hshort
  have hrows : (0 + tiles_per_row - 1) / tiles_per_row = 0 := by
    apply Nat.div_eq_of_lt
    omega
  have hmain : create_sprite_sheet chr_data palette tiles_per_row scale
      = Image.new (tiles_per_row * (8 * scale)) 0 := by
    simp only [create_sprite_sheet, h0, hrows, List.range_zero, List.foldl_nil,
      Nat.zero_mul]
  refine ⟨?_, ?_, hmain⟩
  · rw [hmain]
    show tiles_per_row * (8 * scale) = tiles_per_row * 8 * scale
    rw [Nat.mul_assoc]
  · rw [hmain]
    rfl

/-- Witness for claim C10 at a concrete empty buffer. -/
theorem sprite_sheet_empty_when_short_witness :
    (create_sprite_sheet [] [] 1 1).width = 8 ∧
    (create_sprite_sheet [] [] 1 1).height = 0 :=
  ⟨(sprite_sheet_empty_when_short [] [] 1 1 (by decide) (by decide)).1,
   (sprite_sheet_empty_when_short [] [] 1 1 (by decide) (by decide)).2.1⟩

/-- Element `k` of `(List.range n).map g` under `getD`. -/
theorem map_range_getD {β : Type} (g : Nat → β) (d : β) (k n : Nat) (hk : k < n) :
    ((List.range n).map g).getD k d = g k := by
  rw [List.getD_eq_getElem?_getD, List.getElem?_map, List.getElem?_range hk]
  rfl

/-- Reading inside a Python slice `l[a:a+n]` at an in-range position is
reading the underlying buffer at `a + k`. -/
theorem sliceN_getD (l : List Nat) (a n k : Nat) (hk : k < n)
    (_h : a + k < l.length) :
    (sliceN l a (a + n)).getD k 0 = l.getD (a + k) 0 := by
  simp only [sliceN, Nat.add_sub_cancel_left, List.getD_eq_getElem?_getD]
  rw [List.getElem?_take, if_pos hk, List.getElem?_drop]

/-- Row `y` of a decoded tile, as a map over the 8 bit positions. -/
theorem decode_tile_row (chr_data : List Nat) (i y : Nat) (hy : y < 8) :
    (decode_tile chr_data i).getD y []
      = (List.range 8).map (fun x =>
          ((((sliceN chr_data (i * 16 + 8) (i * 16 + 16)).getD y 0) >>> (7 - x)) &&& 1) <<< 1
            ||| ((((sliceN chr_data (i * 16) (i * 16 + 8)).getD y 0) >>> (7 - x)) &&& 1)) := by
  simp only [decode_tile]
  rw [map_range_getD _ _ y 8 hy]

/-- Claim C1: for a buffer holding tile `i` completely, the decoded grid
is 8x8 and the cell at column `x`, row `y` is `(high_bit <<< 1) ||| low_bit`
where `low_bit` is bit `7 - x` of buffer byte `i*16 + y` and `high_bit`
is bit `7 - x` of buffer byte `i*16 + 8 + y`; every cell is below 4. -/
theorem decode_tile_bitplane (chr_data : List Nat) (i x y : Nat)
    (hx : x < 8) (hy : y < 8) (hlen : (i + 1) * 16 ≤ chr_data.length) :
    (decode_tile chr_data i).length = 8 ∧
    ((decode_tile chr_data i).getD y []).length = 8 ∧
    ((decode_tile chr_data i).getD y []).getD x 0
        = (((chr_data.getD (i * 16 + 8 + y) 0) >>> (7 - x)) &&& 1) <<< 1
            ||| ((chr_data.getD (i * 16 + y) 0 >>> (7 - x)) &&& 1) ∧
    ((decode_tile chr_data i).getD y []).getD x 0 < 4 := by
  have hidx_lo : i * 16 + y < chr_data.length := by omega
  have hidx_hi : (i * 16 + 8) + y < chr_data.length := by omega
  have hsplit : i * 16 + 16 = (i * 16 + 8) + 8 := by omega
  have hlow := sliceN_getD chr_data (i * 16) 8 y hy hidx_lo
  have hhigh := sliceN_getD chr_data (i * 16 + 8) 8 y hy hidx_hi
  have hrow := decode_tile_row chr_data i y hy
  have hcell : ((decode_tile chr_data i).getD y []).getD x 0
      = (((chr_data.getD (i * 16 + 8 + y) 0) >>> (7 - x)) &&& 1) <<< 1
          ||| ((chr_data.getD (i * 16 + y) 0 >>> (7 - x)) &&& 1) := by
    rw [hrow, map_range_getD _ _ x 8 hx]
    show ((((sliceN chr_data (i * 16 + 8) (i * 16 + 16)).getD y 0) >>> (7 - x)) &&& 1) <<< 1
        ||| ((((sliceN chr_data (i * 16) (i * 16 + 8)).getD y 0) >>> (7 - x)) &&& 1) = _
    rw [hsplit, hlow, hhigh]
  refine ⟨?_, ?_, hcell, ?_⟩
  · simp [decode_tile]
  · rw [hrow]
    simp
  · rw [hcell]
    have hhle : (chr_data.getD (i * 16 + 8 + y) 0 >>> (7 - x)) &&& 1 ≤ 1 :=
      Nat.and_le_right
    have hlle : (chr_data.getD (i * 16 + y) 0 >>> (7 - x)) &&& 1 ≤ 1 :=
      Nat.and_le_right
    rw [show (4 : Nat) = 2 ^ 2 by norm_num]
    apply Nat.or_lt_two_pow
    · rw [Nat.shiftLeft_eq]
      have h2 : ((chr_data.getD (i * 16 + 8 + y) 0 >>> (7 - x)) &&& 1) * 2 ^ 1 ≤ 1 * 2 ^ 1 :=
        Nat.mul_le_mul_right _ hhle
      norm_num at h2 ⊢
      omega
    · omega

/-- Witness for claim C1 on a concrete one-tile buffer with both planes
populated at row 0. -/
theorem decode_tile_bitplane_witness :
    (decode_tile [0xC0, 0, 0, 0, 0, 0, 0, 0, 0x80, 0, 0, 0, 0, 0, 0, 0] 0).length = 8 ∧
    ((decode_tile [0xC0, 0, 0, 0, 0, 0, 0, 0, 0x80, 0, 0, 0, 0, 0, 0, 0] 0).getD 0 []).length = 8 ∧
    ((decode_tile [0xC0, 0, 0, 0, 0, 0, 0, 0, 0x80, 0, 0, 0, 0, 0, 0, 0] 0).getD 0 []).getD 0 0
        = (((([0xC0, 0, 0, 0, 0, 0, 0, 0, 0x80, 0, 0, 0, 0, 0, 0, 0] : List Nat).getD 8 0) >>> 7) &&& 1) <<< 1
            ||| ((([0xC0, 0, 0, 0, 0, 0, 0, 0, 0x80, 0, 0, 0, 0, 0, 0, 0] : List Nat).getD 0 0 >>> 7) &&& 1) ∧
    ((decode_tile [0xC0, 0, 0, 0, 0, 0, 0, 0, 0x80, 0, 0, 0, 0, 0, 0, 0] 0).getD 0 []).getD 0 0 < 4 :=
  decode_tile_bitplane [0xC0, 0, 0, 0, 0, 0, 0, 0, 0x80, 0, 0, 0, 0, 0, 0, 0] 0 0 0
    (by decide) (by decide) (by decide)

/-- Characterization of a single pixel write. -/
theorem setPix_pix (img : Img) (x y : Nat) (c : RGB) (a b : Nat) :
    (setPix img x y c).pix a b = if a = x ∧ b = y then c else img.pix a b := rfl

/-- A fold whose step keeps the width keeps the width. -/
theorem foldl_width {f : Img → Nat → Img} (h : ∀ im k, (f im k).width = im.width) :
    ∀ (l : List Nat) (img : Img), (l.foldl f img).width = img.width := by
  intro l
  induction l with
  | nil => intro img; rfl
  | cons k l ih =>
    intro img
    rw [List.foldl_cons, ih, h]

/-- A fold whose step keeps the height keeps the height. -/
theorem foldl_height {f : Img → Nat → Img} (h : ∀ im k, (f im k).height = im.height) :
    ∀ (l : List Nat) (img : Img), (l.foldl f img).height = img.height := by
  intro l
  induction l with
  | nil => intro img; rfl
  | cons k l ih =>
    intro img
    rw [List.foldl_cons, ih, h]

/-- The innermost `dx` loop of the rasterizer writes a horizontal run of
`n` pixels at row `b0` starting at column `x0`. -/
theorem foldl_setPix_run (n : Nat) (img : Img) (x0 b0 : Nat) (c : RGB) (a b : Nat) :
    ((List.range n).foldl (fun im dx => setPix im (x0 + dx) b0 c) img).pix a b
      = if x0 ≤ a ∧ a < x0 + n ∧ b = b0 then c else img.pix a b := by
  induction n with
  | zero =>
    rw [List.range_zero, List.foldl_nil, if_neg]
    omega
  | succ n ih =>
    simp only [List.range_succ, List.foldl_append, List.foldl_cons, List.foldl_nil]
    rw [setPix_pix, ih]
    split_ifs <;> first | rfl | omega

/-- The `dy`/`dx` loops of the rasterizer write a solid `scale` by `m`
rectangle of color `c` with top-left corner `(x0, y0)`. -/
theorem foldl_setPix_block (m scale : Nat) (img : Img) (x0 y0 : Nat) (c : RGB)
    (a b : Nat) :
    ((List.range m).foldl (fun im dy =>
        (List.range scale).foldl (fun im2 dx => setPix im2 (x0 + dx) (y0 + dy) c) im)
      img).pix a b
      = if x0 ≤ a ∧ a < x0 + scale ∧ y0 ≤ b ∧ b < y0 + m then c else img.pix a b := by
  induction m with
  | zero =>
    rw [List.range_zero, List.foldl_nil, if_neg]
    omega
  | succ m ih =>
    simp only [List.range_succ, List.foldl_append, List.foldl_cons, List.foldl_nil]
    rw [foldl_setPix_run, ih]
    split_ifs <;> first | rfl | omega

/-- The `x` loop of the rasterizer fills the horizontal band of rows
`[y0, y0 + scale)` for the first `K` tile columns; the written color is
that of tile column `a / scale`. -/
theorem foldl_tile_row (K scale : Nat) (hs : 1 ≤ scale) (img : Img)
    (col : Nat → RGB) (y0 a b : Nat) :
    ((List.range K).foldl (fun im x =>
        (List.range scale).foldl (fun im2 dy =>
          (List.range scale).foldl (fun im3 dx =>
            setPix im3 (x * scale + dx) (y0 + dy) (col x)) im2) im) img).pix a b
      = if a < K * scale ∧ y0 ≤ b ∧ b < y0 + scale then col (a / scale)
        else img.pix a b := by
  induction K with
  | zero =>
    rw [List.range_zero, List.foldl_nil, if_neg]
    omega
  | succ K ih =>
    simp only [List.range_succ, List.foldl_append, List.foldl_cons, List.foldl_nil]
    rw [foldl_setPix_block, ih]
    have hdiv : K * scale ≤ a → a < K * scale + scale → a / scale = K := by
      intro h1 h2
      exact Nat.div_eq_of_lt_le h1 (by rw [add_one_mul]; exact h2)
    have hKs : (K + 1) * scale = K * scale + scale := add_one_mul K scale
    rw [hKs]
    generalize hks : K * scale = t at hdiv ⊢
    split_ifs <;> first | rfl | omega | (rw [hdiv (by omega) (by omega)])

/-- The `y` loop of the rasterizer fills the first `M` tile rows; the
written color is that of tile cell `(b / scale, a / scale)`. -/
theorem foldl_tile_grid (M scale : Nat) (hs : 1 ≤ scale) (img : Img)
    (cell : Nat → Nat → RGB) (a b : Nat) :
    ((List.range M).foldl (fun im y =>
        (List.range 8).foldl (fun im2 x =>
          (List.range scale).foldl (fun im3 dy =>
            (List.range scale).foldl (fun im4 dx =>
              setPix im4 (x * scale + dx) (y * scale + dy) (cell y x)) im3) im2) im)
      img).pix a b
      = if a < 8 * scale ∧ b < M * scale then cell (b / scale) (a / scale)
        else img.pix a b := by
  induction M with
  | zero =>
    rw [List.range_zero, List.foldl_nil, if_neg]
    omega
  | succ M ih =>
    rw [List.range_succ M, List.foldl_append]
    simp only [List.foldl_cons, List.foldl_nil]
    rw [foldl_tile_row 8 scale hs _ (cell M) (M * scale) a b, ih]
    have hdiv : M * scale ≤ b → b < M * scale + scale → b / scale = M := by
      intro h1 h2
      exact Nat.div_eq_of_lt_le h1 (by rw [add_one_mul]; exact h2)
    have hMs : (M + 1) * scale = M * scale + scale := add_one_mul M scale
    rw [hMs]
    generalize hms : M * scale = t at hdiv ⊢
    split_ifs <;> first | rfl | omega | (rw [hdiv (by omega) (by omega)])

/-- Width of a rasterized tile. -/
theorem create_tile_image_width (t : List (List Nat)) (p : List RGB) (s : Nat) :
    (create_tile_image t p s).width = 8 * s := by
  simp only [create_tile_image]
  refine (foldl_width ?_ _ _).trans rfl
  intro im y
  apply foldl_width
  intro im2 x
  apply foldl_width
  intro im3 dy
  apply foldl_width
  intro im4 dx
  rfl

/-- Height of a rasterized tile. -/
theorem create_tile_image_height (t : List (List Nat)) (p : List RGB) (s : Nat) :
    (create_tile_image t p s).height = 8 * s := by
  simp only [create_tile_image]
  refine (foldl_height ?_ _ _).trans rfl
  intro im y
  apply foldl_height
  intro im2 x
  apply foldl_height
  intro im3 dy
  apply foldl_height
  intro im4 dx
  rfl

/-- Closed form of the rasterizer: inside the image, pixel `(a, b)` holds
the palette color of tile cell `(b / scale, a / scale)`. -/
theorem create_tile_image_pix (tile_pixels : List (List Nat)) (palette : List RGB)
    (scale a b : Nat) (hs : 1 ≤ scale) (ha : a < 8 * scale) (hb : b < 8 * scale) :
    (create_tile_image tile_pixels palette scale).pix a b
      = palette.getD ((tile_pixels.getD (b / scale) []).getD (a / scale) 0) black :=
  (foldl_tile_grid 8 scale hs (Image.new (8 * scale) (8 * scale))
      (fun y x => palette.getD ((tile_pixels.getD y []).getD x 0) black) a b).trans
    (if_pos ⟨ha, hb⟩)

/-- Claim C8: `create_tile_image` yields an `8*scale` square raster in
which the pixel at `(x*scale + dx, y*scale + dy)` is the palette color
of grid cell `(y, x)` for all `dx, dy < scale` (so every `scale` by
`scale` block is one solid color), and nearest-neighbor downsampling of
the `scale = 3` output (sampling every third pixel) reproduces the
`scale = 1` output exactly. -/
theorem tile_image_scale_blocks (tile_pixels : List (List Nat)) (palette : List RGB)
    (scale : Nat) (hs : 1 ≤ scale) :
    (create_tile_image tile_pixels palette scale).width = 8 * scale ∧
    (create_tile_image tile_pixels palette scale).height = 8 * scale ∧
    (∀ x y dx dy, x < 8 → y < 8 → dx < scale → dy < scale →
      (create_tile_image tile_pixels palette scale).pix (x * scale + dx) (y * scale + dy)
        = palette.getD ((tile_pixels.getD y []).getD x 0) black) ∧
    (∀ x y, x < 8 → y < 8 →
      (create_tile_image tile_pixels palette 3).pix (3 * x) (3 * y)
        = (create_tile_image tile_pixels palette 1).pix x y) := by
  refine ⟨create_tile_image_width _ _ _, create_tile_image_height _ _ _, ?_, ?_⟩
  · intro x y dx dy hx hy hdx hdy
    have hxs : (x + 1) * scale ≤ 8 * scale := Nat.mul_le_mul_right _ (by omega)
    have hys : (y + 1) * scale ≤ 8 * scale := Nat.mul_le_mul_right _ (by omega)
    have hxs2 : (x + 1) * scale = x * scale + scale := add_one_mul x scale
    have hys2 : (y + 1) * scale = y * scale + scale := add_one_mul y scale
    have ha : x * scale + dx < 8 * scale := by omega
    have hb : y * scale + dy < 8 * scale := by omega
    rw [create_tile_image_pix tile_pixels palette scale _ _ hs ha hb]
    have hdivx : (x * scale + dx) / scale = x := by
      rw [Nat.mul_comm x scale, Nat.mul_add_div (by omega), Nat.div_eq_of_lt hdx]
      omega
    have hdivy : (y * scale + dy) / scale = y := by
      rw [Nat.mul_comm y scale, Nat.mul_add_div (by omega), Nat.div_eq_of_lt hdy]
      omega
    rw [hdivx, hdivy]
  · intro x y hx hy
    have ha3 : 3 * x < 8 * 3 := by omega
    have hb3 : 3 * y < 8 * 3 := by omega
    have ha1 : x < 8 * 1 := by omega
    have hb1 : y < 8 * 1 := by omega
    rw [create_tile_image_pix tile_pixels palette 3 _ _ (by norm_num) ha3 hb3,
      create_tile_image_pix tile_pixels palette 1 _ _ (by norm_num) ha1 hb1]
    have e1 : 3 * x / 3 = x := by omega
    have e2 : 3 * y / 3 = y := by omega
    have e3 : x / 1 = x := by omega
    have e4 : y / 1 = y := by omega
    rw [e1, e2, e3, e4]

/-- Witness for claim C8 on a concrete grid, palette and coordinates. -/
theorem tile_image_scale_blocks_witness :
    (create_tile_image [[2]] [(1, 1, 1), (2, 2, 2), (3, 3, 3), (4, 4, 4)] 1).pix
        (0 * 1 + 0) (0 * 1 + 0)
      = ([(1, 1, 1), (2, 2, 2), (3, 3, 3), (4, 4, 4)] : List RGB).getD
          ((([[2]] : List (List Nat)).getD 0 []).getD 0 0) black :=
  (tile_image_scale_blocks [[2]] [(1, 1, 1), (2, 2, 2), (3, 3, 3), (4, 4, 4)] 1
    (by decide)).2.2.1 0 0 0 0 (by decide) (by decide) (by decide) (by decide)

/-- Claim C6: the sheet is exactly `tiles_per_row * 8 * scale` pixels
wide and `ceil(tile_count / tiles_per_row) * 8 * scale` pixels tall
(`⌈/⌉` is the ceiling division of naturals); with 17 tiles and 16 tiles
per row there are exactly 2 tile rows regardless of scale. -/
theorem sprite_sheet_dimensions (chr_data : List Nat) (palette : List RGB)
    (tiles_per_row scale : Nat) (htpr : 1 ≤ tiles_per_row) (hs : 1 ≤ scale)
    (hlen : 16 ≤ chr_data.length) :
    (create_sprite_sheet chr_data palette tiles_per_row scale).width
        = tiles_per_row * 8 * scale ∧
    (create_sprite_sheet chr_data palette tiles_per_row scale).height
        = (num_tiles chr_data ⌈/⌉ tiles_per_row) * (8 * scale) ∧
    (num_tiles chr_data = 17 → tiles_per_row = 16 →
      (create_sprite_sheet chr_data palette tiles_per_row scale).height
        = 2 * (8 * scale)) := by
  have hw : (create_sprite_sheet chr_data palette tiles_per_row scale).width
      = tiles_per_row * (8 * scale) := by
    simp only [create_sprite_sheet]
    refine (foldl_width ?_ _ _).trans rfl
    intro im k
    rfl
  have hh : (create_sprite_sheet chr_data palette tiles_per_row scale).height
      = ((num_tiles chr_data + tiles_per_row - 1) / tiles_per_row) * (8 * scale) := by
    simp only [create_sprite_sheet]
    refine (foldl_height ?_ _ _).trans rfl
    intro im k
    rfl
  refine ⟨?_, ?_, ?_⟩
  · rw [hw, Nat.mul_assoc]
  · rw [hh, Nat.ceilDiv_eq_add_pred_div]
  · intro h17 h16
    rw [hh, h17, h16]

/-- Witness for claim C6 on a 272-byte (17-tile) buffer with 16 tiles
per row. -/
theorem sprite_sheet_dimensions_witness :
    (create_sprite_sheet (List.replicate 272 0) [] 16 1).width = 16 * 8 * 1 ∧
    (create_sprite_sheet (List.replicate 272 0) [] 16 1).height = 2 * (8 * 1) :=
  ⟨(sprite_sheet_dimensions (List.replicate 272 0) [] 16 1 (by norm_num) (by norm_num)
      (by rw [List.length_replicate]; norm_num)).1,
   (sprite_sheet_dimensions (List.replicate 272 0) [] 16 1 (by norm_num) (by norm_num)
      (by rw [List.length_replicate]; norm_num)).2.2
     (by unfold num_tiles; rw [List.length_replicate]) rfl⟩

/-- Characterization of a paste. -/
theorem paste_pix (dst src : Img) (x y a b : Nat) :
    (paste dst src x y).pix a b
      = if a < dst.width ∧ b < dst.height ∧ x ≤ a ∧ a < x + src.width ∧
            y ≤ b ∧ b < y + src.height then src.pix (a - x) (b - y)
        else dst.pix a b := rfl

/-- Layering lemma for the sheet loop: after pasting the first `K`
tiles, the rectangle of any already-pasted tile `i` holds exactly that
tile's raster; later tiles land in disjoint rectangles and do not
disturb it. -/
theorem sheet_fold_pix (chr_data : List Nat) (palette : List RGB) (tpr scale : Nat)
    (htpr : 1 ≤ tpr) (hs : 1 ≤ scale) (rows K : Nat) (hK : K ≤ rows * tpr)
    (i a b : Nat) (hi : i < K) (ha : a < 8 * scale) (hb : b < 8 * scale) :
    ((List.range K).foldl (fun sheet tile_idx =>
        paste sheet (create_tile_image (decode_tile chr_data tile_idx) palette scale)
          ((tile_idx % tpr) * (8 * scale)) ((tile_idx / tpr) * (8 * scale)))
      (Image.new (tpr * (8 * scale)) (rows * (8 * scale)))).pix
        ((i % tpr) * (8 * scale) + a) ((i / tpr) * (8 * scale) + b)
      = (create_tile_image (decode_tile chr_data i) palette scale).pix a b := by
  induction K with
  | zero => omega
  | succ K ih =>
    rw [List.range_succ K, List.foldl_append]
    simp only [List.foldl_cons, List.foldl_nil]
    set dst := (List.range K).foldl (fun sheet tile_idx =>
        paste sheet (create_tile_image (decode_tile chr_data tile_idx) palette scale)
          ((tile_idx % tpr) * (8 * scale)) ((tile_idx / tpr) * (8 * scale)))
      (Image.new (tpr * (8 * scale)) (rows * (8 * scale))) with hdst
    have hdw : dst.width = tpr * (8 * scale) := by
      rw [hdst]
      refine (foldl_width ?_ _ _).trans rfl
      intro im k
      rfl
    have hdh : dst.height = rows * (8 * scale) := by
      rw [hdst]
      refine (foldl_height ?_ _ _).trans rfl
      intro im k
      rfl
    rw [paste_pix]
    rcases Nat.lt_succ_iff_lt_or_eq.mp hi with hlt | heq
    · split_ifs with hcond
      · exfalso
        obtain ⟨-, -, hx1, hx2, hy1, hy2⟩ := hcond
        rw [create_tile_image_width] at hx2
        rw [create_tile_image_height] at hy2
        have dxi : ((i % tpr) * (8 * scale) + a) / (8 * scale) = i % tpr := by
          apply Nat.div_eq_of_lt_le (Nat.le_add_right _ _)
          rw [add_one_mul]
          exact Nat.add_lt_add_left ha _
        have dxK : ((i % tpr) * (8 * scale) + a) / (8 * scale) = K % tpr := by
          apply Nat.div_eq_of_lt_le hx1
          rw [add_one_mul]
          exact hx2
        have dyi : ((i / tpr) * (8 * scale) + b) / (8 * scale) = i / tpr := by
          apply Nat.div_eq_of_lt_le (Nat.le_add_right _ _)
          rw [add_one_mul]
          exact Nat.add_lt_add_left hb _
        have dyK : ((i / tpr) * (8 * scale) + b) / (8 * scale) = K / tpr := by
          apply Nat.div_eq_of_lt_le hy1
          rw [add_one_mul]
          exact hy2
        have hmod : i % tpr = K % tpr := dxi.symm.trans dxK
        have hdiv : i / tpr = K / tpr := dyi.symm.trans dyK
        have h1 := Nat.div_add_mod i tpr
        have h2 := Nat.div_add_mod K tpr
        rw [hmod, hdiv] at h1
        have hik : i = K := h1.symm.trans h2
        omega
      · exact ih (Nat.le_of_succ_le hK) hlt
    · subst heq
      split_ifs with hcond
      · rw [Nat.add_sub_cancel_left, Nat.add_sub_cancel_left]
      · exfalso
        apply hcond
        refine ⟨?_, ?_, Nat.le_add_right _ _, ?_, Nat.le_add_right _ _, ?_⟩
        · rw [hdw]
          calc (i % tpr) * (8 * scale) + a
              < (i % tpr) * (8 * scale) + 8 * scale := Nat.add_lt_add_left ha _
            _ = (i % tpr + 1) * (8 * scale) := (add_one_mul _ _).symm
            _ ≤ tpr * (8 * scale) :=
              Nat.mul_le_mul_right _ (Nat.succ_le_of_lt (Nat.mod_lt _ (by omega)))
        · rw [hdh]
          have hrow : i / tpr < rows := by
            rw [Nat.div_lt_iff_lt_mul (by omega : 0 < tpr)]
            exact hK
          calc (i / tpr) * (8 * scale) + b
              < (i / tpr) * (8 * scale) + 8 * scale := Nat.add_lt_add_left hb _
            _ = (i / tpr + 1) * (8 * scale) := (add_one_mul _ _).symm
            _ ≤ rows * (8 * scale) := Nat.mul_le_mul_right _ hrow
        · rw [create_tile_image_width]
          exact Nat.add_lt_add_left ha _
        · rw [create_tile_image_height]
          exact Nat.add_lt_add_left hb _

/-- Claim C7: tile `i` is pasted with its top-left corner at pixel
`((i % tiles_per_row) * 8 * scale, (i / tiles_per_row) * 8 * scale)`,
i.e. grid row `i / tiles_per_row` and column `i % tiles_per_row` in
row-major order: inside that rectangle the finished sheet shows exactly
the raster of tile `i`. -/
theorem sprite_sheet_tile_placement (chr_data : List Nat) (palette : List RGB)
    (tiles_per_row scale i a b : Nat) (htpr : 1 ≤ tiles_per_row) (hs : 1 ≤ scale)
    (hi : i < num_tiles chr_data) (ha : a < 8 * scale) (hb : b < 8 * scale) :
    (create_sprite_sheet chr_data palette tiles_per_row scale).pix
        ((i % tiles_per_row) * (8 * scale) + a) ((i / tiles_per_row) * (8 * scale) + b)
      = (create_tile_image (decode_tile chr_data i) palette scale).pix a b := by
  have hK : num_tiles chr_data
      ≤ ((num_tiles chr_data + tiles_per_row - 1) / tiles_per_row) * tiles_per_row := by
    have h1 : num_tiles chr_data + tiles_per_row - 1
        < (num_tiles chr_data + tiles_per_row - 1) / tiles_per_row * tiles_per_row
            + tiles_per_row :=
      Nat.lt_div_mul_add (by omega)
    generalize (num_tiles chr_data + tiles_per_row - 1) / tiles_per_row * tiles_per_row
        = t at h1 ⊢
    omega
  exact sheet_fold_pix chr_data palette tiles_per_row scale htpr hs
    ((num_tiles chr_data + tiles_per_row - 1) / tiles_per_row) (num_tiles chr_data) hK
    i a b hi ha hb

/-- Witness for claim C7: on a 17-tile buffer with 16 tiles per row,
tile 16 lands at grid row 1, column 0. -/
theorem sprite_sheet_tile_placement_witness :
    (create_sprite_sheet (List.replicate 272 0) [] 16 1).pix
        ((16 % 16) * (8 * 1) + 0) ((16 / 16) * (8 * 1) + 0)
      = (create_tile_image (decode_tile (List.replicate 272 0) 16) [] 1).pix 0 0 :=
  sprite_sheet_tile_placement (List.replicate 272 0) [] 16 1 16 0 0 (by norm_num)
    (by norm_num) (by unfold num_tiles; rw [List.length_replicate]; norm_num)
    (by norm_num) (by norm_num)
